import Mathlib

/-!
Verification of the NextDNS-Rewrites reconciler (src/main.py).

The program is a one-shot synchronizer: it loads a configuration with a
profile name and a list of desired rewrites, resolves the profile by name,
fetches the existing rewrites for that profile, and for each desired rewrite
either replaces (delete-then-create) the first existing rewrite with the same
name, or creates the rewrite if no existing entry matches.

The embedding below is a shallow model of `main` in src/main.py.  Network
calls are represented as elements of `ApiCall` collected in a trace, and
their outcomes (success, or a raised `ApiError` with a message) are supplied
by oracle functions, so that every control path of the Python code is a path
of the Lean functions.  `exit(1)` is modelled by an error-valued `RunStatus`
that stops the run.
-/

/-- A desired rewrite from the configuration file: `{name, content}`. -/
structure Rewrite where
  name : String
  content : String
deriving Repr, DecidableEq

/-- A remote rewrite returned by `GET /profiles/{id}/rewrites`. -/
structure RemoteRewrite where
  id : String
  name : String
  content : String
deriving Repr, DecidableEq

/-- A remote profile returned by `GET /profiles`. -/
structure Profile where
  id : String
  name : String
deriving Repr, DecidableEq

/-- The API calls the program can issue, in trace order. -/
inductive ApiCall where
  | getProfiles : ApiCall
  | getRewrites (profileId : String) : ApiCall
  | deleteRewrite (profileId : String) (rewriteId : String) : ApiCall
  | createRewrite (profileId : String) (name : String) (content : String) : ApiCall
deriving Repr, DecidableEq

/-- Outcome of one HTTP request: either it returns normally, or it raises
`ApiError` whose string representation is `msg`. -/
inductive CallResult where
  | ok : CallResult
  | apiError (msg : String) : CallResult
deriving Repr, DecidableEq

/-- How a run ends: `ok` is exit code 0; every other constructor is one of
the `exit(1)` sites of `main`. -/
inductive RunStatus where
  | ok : RunStatus
  | errMissingProfileName : RunStatus
  | errNoRewrites : RunStatus
  | errProfileNotFound : RunStatus
  | errDelete : RunStatus
  | errCreate : RunStatus
deriving Repr, DecidableEq

/-- The exact `ApiError` message that `main` treats as a successful DELETE
(src/main.py line 130: `if str(e) == "Error code: 204"`). -/
def deleteSuccessMsg : String := "Error code: 204"

/-- Status resulting from a create attempt: `create_rewrite` re-raises any
`ApiError`, and both call sites catch it and `exit(1)` (src/main.py
lines 136-145 and 152-159). -/
def createStatus (creRes : Rewrite → CallResult) (r : Rewrite) : RunStatus :=
  match creRes r with
  | CallResult.ok => RunStatus.ok
  | CallResult.apiError _ => RunStatus.errCreate

/-- The inner `for existing_rewrite in existing_rewrites ... else` loop of
`main` (src/main.py lines 116-159) for one desired rewrite `r`: scan
`existing` in order; at the first entry whose `name` equals `r.name`, issue
DELETE (treating the `ApiError` message `"Error code: 204"` as success and
any other `ApiError` as fatal), then issue the create and stop (`break`);
if no entry matches (`for ... else`), issue the create alone.  Returns the
trace of calls issued and the resulting status. -/
def reconcileOne (profileId : String) (r : Rewrite)
    (delRes : String → CallResult) (creRes : Rewrite → CallResult) :
    List RemoteRewrite → List ApiCall × RunStatus
  | [] =>
      ([ApiCall.createRewrite profileId r.name r.content], createStatus creRes r)
  | e :: rest =>
      if e.name == r.name then
        match delRes e.id with
        | CallResult.ok =>
            (ApiCall.deleteRewrite profileId e.id ::
              [ApiCall.createRewrite profileId r.name r.content],
             createStatus creRes r)
        | CallResult.apiError msg =>
            if msg == deleteSuccessMsg then
              (ApiCall.deleteRewrite profileId e.id ::
                [ApiCall.createRewrite profileId r.name r.content],
               createStatus creRes r)
            else
              ([ApiCall.deleteRewrite profileId e.id], RunStatus.errDelete)
      else reconcileOne profileId r delRes creRes rest

/-- The outer `for rewrite in rewrites` loop of `main` (src/main.py
lines 115-159): reconcile each desired rewrite in configuration order
against the SAME fetched `existing` list (the code never refreshes it), and
stop at the first `exit(1)`. -/
def reconcileAll (profileId : String)
    (delRes : String → CallResult) (creRes : Rewrite → CallResult)
    (existing : List RemoteRewrite) :
    List Rewrite → List ApiCall × RunStatus
  | [] => ([], RunStatus.ok)
  | r :: rest =>
      let step := reconcileOne profileId r delRes creRes existing
      match step.2 with
      | RunStatus.ok =>
          let tail := reconcileAll profileId delRes creRes existing rest
          (step.1 ++ tail.1, tail.2)
      | s => (step.1, s)

/-- Profile resolution in `main` (src/main.py lines 92-94):
`next((p for p in profiles if p["name"] == profile_name), None)`,
i.e. the first profile in list order whose `name` equals `profile_name`
under exact string equality. -/
def resolveProfile (profiles : List Profile) (name : String) : Option Profile :=
  profiles.find? (fun p => p.name == name)

/-- The whole of `main` after config loading (src/main.py lines 67-159):
check `profile_name` is present and non-empty, check `rewrites` is
non-empty, issue `GET /profiles`, resolve the profile by name (exit 1 if
not found), issue `GET /profiles/{id}/rewrites`, then run the
reconciliation loop.  The fetched `profiles` and `existing` lists are
passed in as the data those two GET calls return. -/
def mainRun (profileName : String) (desired : List Rewrite)
    (profiles : List Profile) (existing : List RemoteRewrite)
    (delRes : String → CallResult) (creRes : Rewrite → CallResult) :
    List ApiCall × RunStatus :=
  if profileName == "" then ([], RunStatus.errMissingProfileName)
  else if desired.isEmpty then ([], RunStatus.errNoRewrites)
  else
    match resolveProfile profiles profileName with
    | none => ([ApiCall.getProfiles], RunStatus.errProfileNotFound)
    | some profile =>
        let res := reconcileAll profile.id delRes creRes existing desired
        (ApiCall.getProfiles :: ApiCall.getRewrites profile.id :: res.1, res.2)

/-- Oracle for runs in which every DELETE raises the provider's special
success status (the behaviour spec 4.3 describes for a DELETE that
succeeds). -/
def okDel : String → CallResult := fun _ => CallResult.apiError deleteSuccessMsg

/-- Oracle for runs in which every POST (create) succeeds. -/
def okCre : Rewrite → CallResult := fun _ => CallResult.ok

/-- Holds exactly on create calls. -/
def ApiCall.isCreate : ApiCall → Bool
  | ApiCall.createRewrite _ _ _ => true
  | _ => false

/-- Holds exactly on delete calls. -/
def ApiCall.isDelete : ApiCall → Bool
  | ApiCall.deleteRewrite _ _ => true
  | _ => false

/-- The rewrite id a delete call targets, if the call is a delete. -/
def deleteTarget : ApiCall → Option String
  | ApiCall.deleteRewrite _ rid => some rid
  | _ => none

/-- The ids targeted by the delete calls of a trace, in order. -/
def deleteTargets (calls : List ApiCall) : List String :=
  calls.filterMap deleteTarget

/-- The first existing rewrite whose `name` equals the desired rewrite's
`name`, exactly as the inner loop of `main` scans for it. -/
def matchedRewrite (r : Rewrite) (existing : List RemoteRewrite) : Option RemoteRewrite :=
  existing.find? (fun e => e.name == r.name)

/-- The calls issued for one desired rewrite when every call succeeds
(a DELETE raising the special success status): replace the first name
match, or plain create. -/
def plannedCalls (pid : String) (r : Rewrite) (existing : List RemoteRewrite) : List ApiCall :=
  match matchedRewrite r existing with
  | some e => [ApiCall.deleteRewrite pid e.id, ApiCall.createRewrite pid r.name r.content]
  | none => [ApiCall.createRewrite pid r.name r.content]

/-- The id the reconciliation step for `r` deletes: the id of the first
existing entry named `r.name`, if any. -/
def matchedId (r : Rewrite) (existing : List RemoteRewrite) : Option String :=
  (matchedRewrite r existing).map RemoteRewrite.id

/-- The kind of an API call (which verb and endpoint), with its arguments
erased: used to compare two runs' operation sequences. -/
inductive CallKind where
  | profilesGet : CallKind
  | rewritesGet : CallKind
  | deleteK : CallKind
  | createK : CallKind
deriving Repr, DecidableEq

/-- The kind of one call. -/
def ApiCall.kind : ApiCall → CallKind
  | ApiCall.getProfiles => CallKind.profilesGet
  | ApiCall.getRewrites _ => CallKind.rewritesGet
  | ApiCall.deleteRewrite _ _ => CallKind.deleteK
  | ApiCall.createRewrite _ _ _ => CallKind.createK

/-- The sequence of call kinds of a trace, in order. -/
def callKinds (calls : List ApiCall) : List CallKind :=
  calls.map ApiCall.kind

/-- Modelled from the spec: the provider's remote rewrite state is not part
of src/ (it lives on the NextDNS servers); spec sections 4.3 and 6 describe
it: `POST .../rewrites` appends a new rewrite entity with a fresh opaque id
and the posted name/content, `DELETE .../rewrites/{id}` removes the entity
with that id, and the GET calls do not change state.  `genId k` is the id
the provider assigns to the k-th rewrite created since the start of the
trace. -/
def applyCalls (genId : Nat → String) :
    List ApiCall → List RemoteRewrite → Nat → List RemoteRewrite × Nat
  | [], rws, ctr => (rws, ctr)
  | ApiCall.getProfiles :: cs, rws, ctr => applyCalls genId cs rws ctr
  | ApiCall.getRewrites _ :: cs, rws, ctr => applyCalls genId cs rws ctr
  | ApiCall.deleteRewrite _ rid :: cs, rws, ctr =>
      applyCalls genId cs (rws.filter (fun e => e.id != rid)) ctr
  | ApiCall.createRewrite _ n cnt :: cs, rws, ctr =>
      applyCalls genId cs (rws ++ [⟨genId ctr, n, cnt⟩]) (ctr + 1)

/-- Modelled from the spec: the remote rewrite list after one
all-successful reconciliation run against `existing` (no external changes
interleaved), obtained by replaying the run's trace against the provider
state model. -/
def postRunState (genId : Nat → String) (pid : String) (desired : List Rewrite)
    (existing : List RemoteRewrite) : List RemoteRewrite :=
  (applyCalls genId (reconcileAll pid okDel okCre existing desired).1 existing 0).1

theorem reconcileOne_matched_none (pid : String) (r : Rewrite)
    (delRes : String → CallResult) (creRes : Rewrite → CallResult)
    (existing : List RemoteRewrite)
    (h : matchedRewrite r existing = none) :
    reconcileOne pid r delRes creRes existing =
      ([ApiCall.createRewrite pid r.name r.content], createStatus creRes r) := by
  induction existing with
  | nil => rfl
  | cons e rest ih =>
    by_cases he : (e.name == r.name) = true
    · rw [matchedRewrite, List.find?_cons_of_pos rest he] at h
      exact absurd h (by simp)
    · rw [matchedRewrite, List.find?_cons_of_neg rest he] at h
      simp only [reconcileOne]
      rw [if_neg he]
      exact ih h

theorem reconcileOne_matched_some (pid : String) (r : Rewrite)
    (delRes : String → CallResult) (creRes : Rewrite → CallResult)
    (existing : List RemoteRewrite) (e : RemoteRewrite)
    (h : matchedRewrite r existing = some e) :
    reconcileOne pid r delRes creRes existing =
      match delRes e.id with
      | CallResult.ok =>
          ([ApiCall.deleteRewrite pid e.id, ApiCall.createRewrite pid r.name r.content],
           createStatus creRes r)
      | CallResult.apiError msg =>
          if msg == deleteSuccessMsg then
            ([ApiCall.deleteRewrite pid e.id, ApiCall.createRewrite pid r.name r.content],
             createStatus creRes r)
          else ([ApiCall.deleteRewrite pid e.id], RunStatus.errDelete) := by
  induction existing with
  | nil => exact absurd h (by simp [matchedRewrite])
  | cons x rest ih =>
    by_cases hx : (x.name == r.name) = true
    · rw [matchedRewrite, List.find?_cons_of_pos rest hx] at h
      injection h with h
      subst h
      simp only [reconcileOne]
      rw [if_pos hx]
    · rw [matchedRewrite, List.find?_cons_of_neg rest hx] at h
      simp only [reconcileOne]
      rw [if_neg hx]
      exact ih h

theorem reconcileOne_ok (pid : String) (r : Rewrite) (existing : List RemoteRewrite) :
    reconcileOne pid r okDel okCre existing = (plannedCalls pid r existing, RunStatus.ok) := by
  cases h : matchedRewrite r existing with
  | none =>
      rw [reconcileOne_matched_none pid r okDel okCre existing h]
      simp [plannedCalls, h, createStatus, okCre]
  | some e =>
      rw [reconcileOne_matched_some pid r okDel okCre existing e h]
      simp [plannedCalls, h, createStatus, okCre, okDel]

theorem reconcileAll_ok (pid : String) (desired : List Rewrite)
    (existing : List RemoteRewrite) :
    reconcileAll pid okDel okCre existing desired =
      (desired.flatMap (fun r => plannedCalls pid r existing), RunStatus.ok) := by
  induction desired with
  | nil => rfl
  | cons r rest ih =>
      simp only [reconcileAll, reconcileOne_ok, ih, List.flatMap_cons]

/-- Claim C1: for every desired rewrite whose name equals the name of some
entry in the existing remote rewrite list, the reconciler issues exactly
one delete call targeting the id of the matched existing entry, followed by
exactly one create call with the desired rewrite's name and content, in
that order (delete strictly before create). -/
theorem claim_c1_replace_order (pid : String) (r : Rewrite)
    (existing : List RemoteRewrite)
    (h : ∃ x ∈ existing, x.name = r.name) :
    ∃ e, matchedRewrite r existing = some e ∧ e ∈ existing ∧ e.name = r.name ∧
      reconcileOne pid r okDel okCre existing =
        ([ApiCall.deleteRewrite pid e.id, ApiCall.createRewrite pid r.name r.content],
         RunStatus.ok) := by
  have hs : (matchedRewrite r existing).isSome := by
    rw [matchedRewrite, List.find?_isSome]
    obtain ⟨x, hx, hn⟩ := h
    exact ⟨x, hx, by simp [hn]⟩
  obtain ⟨e, he⟩ := Option.isSome_iff_exists.mp hs
  have he' : existing.find? (fun x => x.name == r.name) = some e := he
  refine ⟨e, he, List.mem_of_find?_eq_some he', ?_, ?_⟩
  · have hb : (e.name == r.name) = true :=
      @List.find?_some _ (fun x => x.name == r.name) e existing he'
    exact eq_of_beq hb
  · rw [reconcileOne_ok]
    simp [plannedCalls, he]

theorem claim_c1_replace_order_witness :
    reconcileOne "p1" ⟨"a", "x"⟩ okDel okCre [⟨"r1", "a", "old"⟩] =
      ([ApiCall.deleteRewrite "p1" "r1", ApiCall.createRewrite "p1" "a" "x"],
       RunStatus.ok) := by
  obtain ⟨e, he, _, _, hr⟩ :=
    claim_c1_replace_order "p1" ⟨"a", "x"⟩ [⟨"r1", "a", "old"⟩] (by decide)
  have hm : matchedRewrite ⟨"a", "x"⟩ [⟨"r1", "a", "old"⟩] =
      some ⟨"r1", "a", "old"⟩ := by decide
  rw [hm] at he
  injection he with he
  subst he
  exact hr

/-- Claim C2: for every desired rewrite whose name equals no entry in the
existing remote rewrite list, the reconciler issues exactly one create call
for that rewrite and zero delete calls. -/
theorem claim_c2_create_only (pid : String) (r : Rewrite)
    (existing : List RemoteRewrite)
    (h : ∀ x ∈ existing, x.name ≠ r.name) :
    reconcileOne pid r okDel okCre existing =
      ([ApiCall.createRewrite pid r.name r.content], RunStatus.ok) := by
  have hn : matchedRewrite r existing = none := by
    rw [matchedRewrite, List.find?_eq_none]
    intro x hx
    simpa using h x hx
  rw [reconcileOne_matched_none pid r okDel okCre existing hn]
  rfl

theorem claim_c2_create_only_witness :
    reconcileOne "p1" ⟨"a", "x"⟩ okDel okCre [⟨"r1", "b", "old"⟩] =
      ([ApiCall.createRewrite "p1" "a" "x"], RunStatus.ok) :=
  claim_c2_create_only "p1" ⟨"a", "x"⟩ [⟨"r1", "b", "old"⟩] (by decide)

/-- Claim C3: when the DELETE for a matched rewrite raises the provider's
special success status (`"Error code: 204"`), no error is raised and the
flow proceeds to the create call for that rewrite; when it raises any other
error status, the run terminates with exit code 1 before the create call
for that rewrite is issued (and nothing after it runs). -/
theorem claim_c3_delete_status (pid : String) (r : Rewrite) (rest : List Rewrite)
    (existing : List RemoteRewrite) (delRes : String → CallResult)
    (creRes : Rewrite → CallResult) (e : RemoteRewrite)
    (h : matchedRewrite r existing = some e) :
    (delRes e.id = CallResult.apiError deleteSuccessMsg →
      reconcileOne pid r delRes creRes existing =
        ([ApiCall.deleteRewrite pid e.id, ApiCall.createRewrite pid r.name r.content],
         createStatus creRes r)) ∧
    (∀ msg, delRes e.id = CallResult.apiError msg → msg ≠ deleteSuccessMsg →
      reconcileAll pid delRes creRes existing (r :: rest) =
        ([ApiCall.deleteRewrite pid e.id], RunStatus.errDelete)) := by
  constructor
  · intro hd
    rw [reconcileOne_matched_some pid r delRes creRes existing e h, hd]
    simp
  · intro msg hd hne
    have h1 : reconcileOne pid r delRes creRes existing =
        ([ApiCall.deleteRewrite pid e.id], RunStatus.errDelete) := by
      rw [reconcileOne_matched_some pid r delRes creRes existing e h, hd]
      simp [hne]
    simp only [reconcileAll, h1]

theorem claim_c3_delete_status_witness :
    reconcileAll "p1" (fun _ => CallResult.apiError "Error code: 500") okCre
        [⟨"r1", "a", "old"⟩] [⟨"a", "x"⟩] =
      ([ApiCall.deleteRewrite "p1" "r1"], RunStatus.errDelete) :=
  (claim_c3_delete_status "p1" ⟨"a", "x"⟩ []
      [⟨"r1", "a", "old"⟩] (fun _ => CallResult.apiError "Error code: 500") okCre
      ⟨"r1", "a", "old"⟩ (by decide)).2
    "Error code: 500" rfl (by decide)

/-- Claim C10: for a desired rewrite with a matching existing entry, success
of the delete is recognized in exactly two ways: the DELETE call returns
without raising, or it raises an `ApiError` whose string representation is
exactly `"Error code: 204"`; in both of these cases (and no other) the flow
proceeds to the create call, and a raised `ApiError` with any other message
terminates the run with exit code 1. -/
theorem claim_c10_delete_success_only (pid : String) (r : Rewrite)
    (existing : List RemoteRewrite) (delRes : String → CallResult)
    (creRes : Rewrite → CallResult) (e : RemoteRewrite)
    (h : matchedRewrite r existing = some e) :
    ((ApiCall.createRewrite pid r.name r.content ∈
        (reconcileOne pid r delRes creRes existing).1) ↔
      (delRes e.id = CallResult.ok ∨
        delRes e.id = CallResult.apiError "Error code: 204")) ∧
    (∀ msg, delRes e.id = CallResult.apiError msg → msg ≠ "Error code: 204" →
      (reconcileOne pid r delRes creRes existing).2 = RunStatus.errDelete) := by
  rw [reconcileOne_matched_some pid r delRes creRes existing e h]
  constructor
  · cases hd : delRes e.id with
    | ok => simp
    | apiError msg =>
      by_cases hm : msg = "Error code: 204"
      · subst hm
        simp [deleteSuccessMsg]
      · have : (msg == deleteSuccessMsg) = false := by
          simp [deleteSuccessMsg, hm]
        simp [this, hm]
  · intro msg hd hne
    rw [hd]
    have : (msg == deleteSuccessMsg) = false := by
      simp [deleteSuccessMsg, hne]
    simp [this]

theorem claim_c10_delete_success_only_witness :
    ApiCall.createRewrite "p1" "a" "x" ∈
      (reconcileOne "p1" ⟨"a", "x"⟩ okDel okCre [⟨"r1", "a", "old"⟩]).1 :=
  (claim_c10_delete_success_only "p1" ⟨"a", "x"⟩ [⟨"r1", "a", "old"⟩] okDel okCre
      ⟨"r1", "a", "old"⟩ (by decide)).1.mpr (Or.inr rfl)

/-- Claim C4: for every configuration whose profile name (non-empty, with a
non-empty rewrite list) equals the name of no profile in the remote profile
list, the run aborts with the profile-lookup error (exit code 1) and
performs zero create calls and zero delete calls. -/
theorem claim_c4_profile_not_found (profileName : String) (desired : List Rewrite)
    (profiles : List Profile) (existing : List RemoteRewrite)
    (delRes : String → CallResult) (creRes : Rewrite → CallResult)
    (hname : profileName ≠ "") (hrw : desired ≠ [])
    (h : ∀ p ∈ profiles, p.name ≠ profileName) :
    mainRun profileName desired profiles existing delRes creRes =
      ([ApiCall.getProfiles], RunStatus.errProfileNotFound) ∧
    (mainRun profileName desired profiles existing delRes creRes).1.countP
        (fun c => c.isCreate) = 0 ∧
    (mainRun profileName desired profiles existing delRes creRes).1.countP
        (fun c => c.isDelete) = 0 := by
  have hres : resolveProfile profiles profileName = none := by
    rw [resolveProfile, List.find?_eq_none]
    intro p hp
    simpa using h p hp
  have hb : (profileName == "") = false := by simp [hname]
  have hd : desired.isEmpty = false := by
    cases desired with
    | nil => exact absurd rfl hrw
    | cons a l => rfl
  have hmain : mainRun profileName desired profiles existing delRes creRes =
      ([ApiCall.getProfiles], RunStatus.errProfileNotFound) := by
    simp [mainRun, hb, hd, hres]
  refine ⟨hmain, ?_, ?_⟩ <;> rw [hmain] <;> rfl

theorem claim_c4_profile_not_found_witness :
    mainRun "home" [⟨"a", "x"⟩] [⟨"p1", "office"⟩] [] okDel okCre =
      ([ApiCall.getProfiles], RunStatus.errProfileNotFound) :=
  (claim_c4_profile_not_found "home" [⟨"a", "x"⟩] [⟨"p1", "office"⟩] []
      okDel okCre (by decide) (by decide) (by decide)).1

/-- Claim C5 counterexample: with two remote profiles both named `"home"`
and the configured profile name `"home"`, the claim "two or more matches is
also a fatal error" fails: the run completes with exit code 0. -/
theorem claim_c5_counterexample :
    (([⟨"p1", "home"⟩, ⟨"p2", "home"⟩] : List Profile).countP
        (fun p => p.name == "home") = 2) ∧
    (mainRun "home" [⟨"a", "x"⟩] [⟨"p1", "home"⟩, ⟨"p2", "home"⟩] []
        okDel okCre).2 = RunStatus.ok := by decide

/-- Claim C5 amended: zero matching profiles is a fatal error, but two or
more matching profiles is not an error at all: the first matching profile
in list order is used and the run proceeds to reconcile against it. -/
theorem claim_c5_amended (profileName : String) (desired : List Rewrite)
    (profiles : List Profile) (existing : List RemoteRewrite)
    (delRes : String → CallResult) (creRes : Rewrite → CallResult)
    (hname : profileName ≠ "") (hrw : desired ≠ []) :
    ((∀ p ∈ profiles, p.name ≠ profileName) →
      (mainRun profileName desired profiles existing delRes creRes).2 =
        RunStatus.errProfileNotFound) ∧
    (∀ p, resolveProfile profiles profileName = some p →
      mainRun profileName desired profiles existing delRes creRes =
        (ApiCall.getProfiles :: ApiCall.getRewrites p.id ::
            (reconcileAll p.id delRes creRes existing desired).1,
         (reconcileAll p.id delRes creRes existing desired).2)) := by
  have hb : (profileName == "") = false := by simp [hname]
  have hd : desired.isEmpty = false := by
    cases desired with
    | nil => exact absurd rfl hrw
    | cons a l => rfl
  constructor
  · intro h
    have hres : resolveProfile profiles profileName = none := by
      rw [resolveProfile, List.find?_eq_none]
      intro p hp
      simpa using h p hp
    simp [mainRun, hb, hd, hres]
  · intro p hp
    simp [mainRun, hb, hd, hp]

theorem claim_c5_amended_witness :
    mainRun "home" [⟨"a", "x"⟩] [⟨"p1", "home"⟩, ⟨"p2", "home"⟩] [] okDel okCre =
      (ApiCall.getProfiles :: ApiCall.getRewrites "p1" ::
          (reconcileAll "p1" okDel okCre [] [⟨"a", "x"⟩]).1,
       (reconcileAll "p1" okDel okCre [] [⟨"a", "x"⟩]).2) :=
  (claim_c5_amended "home" [⟨"a", "x"⟩] [⟨"p1", "home"⟩, ⟨"p2", "home"⟩] []
      okDel okCre (by decide) (by decide)).2 ⟨"p1", "home"⟩ (by decide)

/-- Claim C6: profile resolution returns the first profile, in the order of
the fetched profile list, whose `name` field equals the configured profile
name under exact, case-sensitive string equality (no normalization):
`resolveProfile profiles n = some p` holds iff `profiles` splits as
`l1 ++ p :: l2` where `p.name = n` and no profile in the prefix `l1` has
name `n`. -/
theorem claim_c6_resolve_first_exact (profiles : List Profile) (n : String)
    (p : Profile) :
    resolveProfile profiles n = some p ↔
      ∃ l1 l2, profiles = l1 ++ p :: l2 ∧ p.name = n ∧
        ∀ q ∈ l1, q.name ≠ n := by
  induction profiles with
  | nil =>
    constructor
    · intro h
      exact absurd h (by simp [resolveProfile])
    · rintro ⟨l1, l2, h, -, -⟩
      exact absurd h (by simp)
  | cons q rest ih =>
    by_cases hq : (q.name == n) = true
    · rw [resolveProfile, List.find?_cons_of_pos rest hq]
      constructor
      · intro h
        injection h with h
        subst h
        exact ⟨[], rest, rfl, eq_of_beq hq, by simp⟩
      · rintro ⟨l1, l2, hsplit, hpn, hfirst⟩
        cases l1 with
        | nil =>
          injection hsplit with h1 h2
          rw [h1]
        | cons a l1' =>
          injection hsplit with h1 h2
          subst h1
          exact absurd (eq_of_beq hq) (hfirst q (by simp))
    · rw [resolveProfile, List.find?_cons_of_neg rest hq]
      have ih' := ih
      rw [resolveProfile] at ih'
      rw [ih']
      constructor
      · rintro ⟨l1, l2, hsplit, hpn, hfirst⟩
        refine ⟨q :: l1, l2, by rw [hsplit]; rfl, hpn, ?_⟩
        intro x hx
        rcases List.mem_cons.mp hx with h | h
        · subst h
          intro hc
          exact hq (by simp [hc])
        · exact hfirst x h
      · rintro ⟨l1, l2, hsplit, hpn, hfirst⟩
        cases l1 with
        | nil =>
          injection hsplit with h1 h2
          exfalso
          apply hq
          rw [h1]
          simp [hpn]
        | cons a l1' =>
          injection hsplit with h1 h2
          subst h1
          exact ⟨l1', l2, h2, hpn, fun x hx => hfirst x (List.mem_cons_of_mem _ hx)⟩

/-- Claim C7: when multiple existing entries share a desired rewrite's name,
only the first matching entry in the list order returned by the provider is
deleted and recreated; the step for that desired rewrite issues exactly the
one delete on the first match's id plus the one create, so no later
duplicate is touched. -/
theorem claim_c7_first_match_replaced (pid : String) (r : Rewrite)
    (existing l1 l2 : List RemoteRewrite) (e : RemoteRewrite)
    (hsplit : existing = l1 ++ e :: l2) (hname : e.name = r.name)
    (hfirst : ∀ x ∈ l1, x.name ≠ r.name) :
    reconcileOne pid r okDel okCre existing =
      ([ApiCall.deleteRewrite pid e.id, ApiCall.createRewrite pid r.name r.content],
       RunStatus.ok) ∧
    ∀ x ∈ l2, x.name = r.name → x.id ≠ e.id →
      ApiCall.deleteRewrite pid x.id ∉ (reconcileOne pid r okDel okCre existing).1 := by
  have hm : matchedRewrite r existing = some e := by
    rw [hsplit, matchedRewrite, List.find?_append]
    have h1 : List.find? (fun x => x.name == r.name) l1 = none := by
      rw [List.find?_eq_none]
      intro x hx
      simpa using hfirst x hx
    have h2 : List.find? (fun x => x.name == r.name) (e :: l2) = some e :=
      List.find?_cons_of_pos l2 (by simp [hname])
    rw [h1, h2]
    rfl
  have htrace : reconcileOne pid r okDel okCre existing =
      ([ApiCall.deleteRewrite pid e.id, ApiCall.createRewrite pid r.name r.content],
       RunStatus.ok) := by
    rw [reconcileOne_ok]
    simp [plannedCalls, hm]
  refine ⟨htrace, ?_⟩
  intro x _ _ hxid
  rw [htrace]
  simp [hxid]

theorem claim_c7_first_match_replaced_witness :
    reconcileOne "p1" ⟨"a", "x"⟩ okDel okCre
        [⟨"r0", "b", "o"⟩, ⟨"r1", "a", "o"⟩, ⟨"r2", "a", "o"⟩] =
      ([ApiCall.deleteRewrite "p1" "r1", ApiCall.createRewrite "p1" "a" "x"],
       RunStatus.ok) :=
  (claim_c7_first_match_replaced "p1" ⟨"a", "x"⟩
      [⟨"r0", "b", "o"⟩, ⟨"r1", "a", "o"⟩, ⟨"r2", "a", "o"⟩]
      [⟨"r0", "b", "o"⟩] [⟨"r2", "a", "o"⟩] ⟨"r1", "a", "o"⟩
      rfl rfl (by decide)).1

/-- Claim C8 counterexample: with two desired rewrites both named `"a"` and
one existing remote entry `("r1", "a")`, a single run issues two delete
calls both targeting the id `"r1"` (the fetched list is never refreshed),
so a remote rewrite id IS targeted by more than one delete call per run. -/
theorem claim_c8_counterexample :
    deleteTargets (reconcileAll "p1" okDel okCre [⟨"r1", "a", "z"⟩]
        [⟨"a", "x"⟩, ⟨"a", "y"⟩]).1 = ["r1", "r1"] ∧
    ¬ (deleteTargets (reconcileAll "p1" okDel okCre [⟨"r1", "a", "z"⟩]
        [⟨"a", "x"⟩, ⟨"a", "y"⟩]).1).Nodup := by decide

theorem deleteTargets_append (l1 l2 : List ApiCall) :
    deleteTargets (l1 ++ l2) = deleteTargets l1 ++ deleteTargets l2 :=
  List.filterMap_append l1 l2 deleteTarget

theorem deleteTargets_planned (pid : String) (r : Rewrite)
    (existing : List RemoteRewrite) :
    deleteTargets (plannedCalls pid r existing) = (matchedId r existing).toList := by
  cases h : matchedRewrite r existing <;>
    simp [plannedCalls, matchedId, h, deleteTargets, deleteTarget,
      List.filterMap_cons]

theorem deleteTargets_run (pid : String) (desired : List Rewrite)
    (existing : List RemoteRewrite) :
    deleteTargets (reconcileAll pid okDel okCre existing desired).1 =
      desired.flatMap (fun r => (matchedId r existing).toList) := by
  rw [reconcileAll_ok]
  induction desired with
  | nil => rfl
  | cons r rest ih =>
      rw [List.flatMap_cons, List.flatMap_cons, deleteTargets_append, ih,
        deleteTargets_planned]

theorem mem_matchedId (r : Rewrite) (existing : List RemoteRewrite) (i : String)
    (h : matchedId r existing = some i) :
    ∃ e ∈ existing, e.name = r.name ∧ e.id = i := by
  rw [matchedId] at h
  cases hm : matchedRewrite r existing with
  | none =>
      rw [hm] at h
      exact absurd h (by simp)
  | some e =>
      rw [hm] at h
      simp at h
      have he' : existing.find? (fun x => x.name == r.name) = some e := hm
      have hb : (e.name == r.name) = true :=
        @List.find?_some _ (fun x => x.name == r.name) e existing he'
      exact ⟨e, List.mem_of_find?_eq_some he', eq_of_beq hb, h⟩

/-- Claim C8 amended: within one reconciliation run, no remote rewrite id is
targeted by more than one delete call provided the desired rewrite names
are pairwise distinct and the existing entries' ids are pairwise distinct;
when the desired list contains several entries with the same name, the
first matching entry's id is deleted once per duplicate (see the
counterexample), because the fetched list is never refreshed. -/
theorem claim_c8_amended (pid : String) (desired : List Rewrite)
    (existing : List RemoteRewrite)
    (hnames : (desired.map Rewrite.name).Nodup)
    (hids : (existing.map RemoteRewrite.id).Nodup) :
    (deleteTargets (reconcileAll pid okDel okCre existing desired).1).Nodup := by
  rw [deleteTargets_run]
  induction desired with
  | nil => simp
  | cons r rest ih =>
      have hn : r.name ∉ List.map Rewrite.name rest ∧
          (List.map Rewrite.name rest).Nodup := by
        rw [List.map_cons, List.nodup_cons] at hnames
        exact hnames
      rw [List.flatMap_cons]
      cases hm : matchedId r existing with
      | none => simpa using ih hn.2
      | some i =>
          simp only [Option.toList, List.cons_append, List.nil_append,
            List.nodup_cons]
          constructor
          · intro hmem
            obtain ⟨r', hr', hi⟩ := List.mem_flatMap.mp hmem
            have hm' : matchedId r' existing = some i := by
              cases h2 : matchedId r' existing with
              | none => rw [h2] at hi; simp at hi
              | some j =>
                  rw [h2] at hi
                  simp at hi
                  rw [hi]
            obtain ⟨e, he, hen, hei⟩ := mem_matchedId r existing i hm
            obtain ⟨e', he', hen', hei'⟩ := mem_matchedId r' existing i hm'
            have hee : e = e' :=
              List.inj_on_of_nodup_map hids he he' (by rw [hei, hei'])
            have hrr : r.name = r'.name := by rw [← hen, hee, hen']
            exact hn.1 (hrr ▸ List.mem_map.mpr ⟨r', hr', rfl⟩)
          · exact ih hn.2

theorem claim_c8_amended_witness :
    (deleteTargets (reconcileAll "p1" okDel okCre
        [⟨"r1", "a", "o"⟩, ⟨"r2", "b", "o"⟩]
        [⟨"a", "x"⟩, ⟨"b", "y"⟩]).1).Nodup :=
  claim_c8_amended "p1" [⟨"a", "x"⟩, ⟨"b", "y"⟩]
    [⟨"r1", "a", "o"⟩, ⟨"r2", "b", "o"⟩] (by decide) (by decide)

theorem applyCalls_cons_getProfiles (genId : Nat → String) (cs : List ApiCall)
    (rws : List RemoteRewrite) (ctr : Nat) :
    applyCalls genId (ApiCall.getProfiles :: cs) rws ctr =
      applyCalls genId cs rws ctr := rfl

theorem applyCalls_cons_getRewrites (genId : Nat → String) (p : String)
    (cs : List ApiCall) (rws : List RemoteRewrite) (ctr : Nat) :
    applyCalls genId (ApiCall.getRewrites p :: cs) rws ctr =
      applyCalls genId cs rws ctr := rfl

theorem applyCalls_cons_delete (genId : Nat → String) (p rid : String)
    (cs : List ApiCall) (rws : List RemoteRewrite) (ctr : Nat) :
    applyCalls genId (ApiCall.deleteRewrite p rid :: cs) rws ctr =
      applyCalls genId cs (rws.filter (fun e => e.id != rid)) ctr := rfl

theorem applyCalls_cons_create (genId : Nat → String) (p n cnt : String)
    (cs : List ApiCall) (rws : List RemoteRewrite) (ctr : Nat) :
    applyCalls genId (ApiCall.createRewrite p n cnt :: cs) rws ctr =
      applyCalls genId cs (rws ++ [⟨genId ctr, n, cnt⟩]) (ctr + 1) := rfl

theorem applyCalls_preserves (genId : Nat → String) (cs : List ApiCall)
    (rws : List RemoteRewrite) (ctr : Nat) (e : RemoteRewrite)
    (he : e ∈ rws)
    (hd : ∀ p rid, ApiCall.deleteRewrite p rid ∈ cs → e.id ≠ rid) :
    e ∈ (applyCalls genId cs rws ctr).1 := by
  induction cs generalizing rws ctr with
  | nil => exact he
  | cons c cs ih =>
      have hd' : ∀ p rid, ApiCall.deleteRewrite p rid ∈ cs → e.id ≠ rid :=
        fun p rid h => hd p rid (List.mem_cons_of_mem _ h)
      cases c with
      | getProfiles =>
          rw [applyCalls_cons_getProfiles]
          exact ih rws ctr he hd'
      | getRewrites p =>
          rw [applyCalls_cons_getRewrites]
          exact ih rws ctr he hd'
      | deleteRewrite p rid =>
          rw [applyCalls_cons_delete]
          refine ih _ ctr ?_ hd'
          rw [List.mem_filter]
          refine ⟨he, ?_⟩
          simp only [bne_iff_ne]
          exact hd p rid (List.mem_cons_self _ _)
      | createRewrite p n cnt =>
          rw [applyCalls_cons_create]
          exact ih _ _ (List.mem_append_left _ he) hd'

theorem applyCalls_create_name (genId : Nat → String) (cs : List ApiCall)
    (rws : List RemoteRewrite) (ctr : Nat) (p n cnt : String)
    (hc : ApiCall.createRewrite p n cnt ∈ cs)
    (hd : ∀ p' rid, ApiCall.deleteRewrite p' rid ∈ cs → ∀ k, rid ≠ genId k) :
    ∃ e ∈ (applyCalls genId cs rws ctr).1, e.name = n := by
  induction cs generalizing rws ctr with
  | nil => simp at hc
  | cons c cs ih =>
      have hd' : ∀ p' rid, ApiCall.deleteRewrite p' rid ∈ cs → ∀ k, rid ≠ genId k :=
        fun p' rid h k => hd p' rid (List.mem_cons_of_mem _ h) k
      rcases List.mem_cons.mp hc with hc1 | hc2
      · rw [← hc1, applyCalls_cons_create]
        refine ⟨⟨genId ctr, n, cnt⟩, ?_, rfl⟩
        apply applyCalls_preserves genId cs _ (ctr + 1) _
          (List.mem_append_right _ (by simp))
        intro p' rid hmem
        have hne := hd' p' rid hmem ctr
        exact fun h => hne (h ▸ rfl)
      · cases c with
        | getProfiles =>
            rw [applyCalls_cons_getProfiles]
            exact ih rws ctr hc2 hd'
        | getRewrites q =>
            rw [applyCalls_cons_getRewrites]
            exact ih rws ctr hc2 hd'
        | deleteRewrite q rid =>
            rw [applyCalls_cons_delete]
            exact ih _ ctr hc2 hd'
        | createRewrite q n' cnt' =>
            rw [applyCalls_cons_create]
            exact ih _ _ hc2 hd'

theorem deleteTargets_run_subset (pid : String) (desired : List Rewrite)
    (existing : List RemoteRewrite) :
    ∀ rid ∈ deleteTargets (reconcileAll pid okDel okCre existing desired).1,
      rid ∈ existing.map RemoteRewrite.id := by
  intro rid hr
  rw [deleteTargets_run] at hr
  obtain ⟨r, hrd, hi⟩ := List.mem_flatMap.mp hr
  have hm : matchedId r existing = some rid := by
    cases h2 : matchedId r existing with
    | none =>
        rw [h2] at hi
        simp at hi
    | some j =>
        rw [h2] at hi
        simp at hi
        rw [hi]
  obtain ⟨e, he, _, hei⟩ := mem_matchedId r existing rid hm
  exact List.mem_map.mpr ⟨e, he, hei⟩

theorem create_mem_run (pid : String) (desired : List Rewrite)
    (existing : List RemoteRewrite) (r : Rewrite) (hr : r ∈ desired) :
    ApiCall.createRewrite pid r.name r.content ∈
      (reconcileAll pid okDel okCre existing desired).1 := by
  rw [reconcileAll_ok]
  refine List.mem_flatMap.mpr ⟨r, hr, ?_⟩
  cases h : matchedRewrite r existing <;> simp [plannedCalls, h]

theorem postRunState_has_names (genId : Nat → String) (pid : String)
    (desired : List Rewrite) (existing : List RemoteRewrite)
    (hfresh : ∀ k, genId k ∉ existing.map RemoteRewrite.id) :
    ∀ r ∈ desired, ∃ e ∈ postRunState genId pid desired existing,
      e.name = r.name := by
  intro r hr
  apply applyCalls_create_name genId _ existing 0 pid r.name r.content
  · exact create_mem_run pid desired existing r hr
  · intro p' rid hmem k
    have h1 : rid ∈ deleteTargets (reconcileAll pid okDel okCre existing desired).1 :=
      List.mem_filterMap.mpr ⟨_, hmem, rfl⟩
    have h2 := deleteTargets_run_subset pid desired existing rid h1
    intro hcontra
    exact hfresh k (hcontra ▸ h2)

theorem callKinds_run_all_match (pid : String) (desired : List Rewrite)
    (existing : List RemoteRewrite)
    (h : ∀ r ∈ desired, ∃ e ∈ existing, e.name = r.name) :
    callKinds (reconcileAll pid okDel okCre existing desired).1 =
      desired.flatMap (fun _ => [CallKind.deleteK, CallKind.createK]) := by
  rw [reconcileAll_ok]
  induction desired with
  | nil => rfl
  | cons r rest ih =>
      rw [List.flatMap_cons, List.flatMap_cons]
      obtain ⟨e, he, hen⟩ := h r (by simp)
      have hs : (matchedRewrite r existing).isSome := by
        rw [matchedRewrite, List.find?_isSome]
        exact ⟨e, he, by simp [hen]⟩
      obtain ⟨e', he'⟩ := Option.isSome_iff_exists.mp hs
      have h1 : callKinds (plannedCalls pid r existing) =
          [CallKind.deleteK, CallKind.createK] := by
        simp [plannedCalls, he', callKinds, ApiCall.kind]
      rw [callKinds, List.map_append]
      rw [callKinds] at h1
      rw [h1]
      have h2 := ih (fun r' hr' => h r' (List.mem_cons_of_mem _ hr'))
      rw [callKinds] at h2
      rw [h2]

/-- Claim C9 counterexample: configuration with one desired rewrite named
`"a"` and an initially empty remote list: the first run issues only a
create, while the second run (on the state the first run produced, with
no external changes in between) issues a delete followed by a create, so
the two runs do NOT produce the same sequence of operations. -/
theorem claim_c9_counterexample :
    callKinds (reconcileAll "p1" okDel okCre [] [⟨"a", "x"⟩]).1 ≠
      callKinds (reconcileAll "p1" okDel okCre
        (postRunState (fun k => "c" ++ toString k) "p1" [⟨"a", "x"⟩] [])
        [⟨"a", "x"⟩]).1 := by decide

/-- Claim C9 amended: running the reconciler twice in succession with the
same configuration and no external changes to remote state between runs
produces the same sequence of operation kinds both times PROVIDED every
desired name already has a match in the initial remote list (then both
runs are delete+recreate for every desired rewrite, since matching is
tested only by name); when some desired name is initially absent, the
first run creates it and the second run replaces it, so the sequences
differ (see the counterexample).  `genId` is assumed to hand out ids that
never collide with the pre-existing ones, as a real provider does. -/
theorem claim_c9_amended (genId : Nat → String) (pid : String)
    (desired : List Rewrite) (existing : List RemoteRewrite)
    (hfresh : ∀ k, genId k ∉ existing.map RemoteRewrite.id)
    (hmatch : ∀ r ∈ desired, ∃ e ∈ existing, e.name = r.name) :
    callKinds (reconcileAll pid okDel okCre existing desired).1 =
      callKinds (reconcileAll pid okDel okCre
        (postRunState genId pid desired existing) desired).1 := by
  rw [callKinds_run_all_match pid desired existing hmatch,
    callKinds_run_all_match pid desired _
      (postRunState_has_names genId pid desired existing hfresh)]

theorem claim_c9_amended_witness :
    callKinds (reconcileAll "p1" okDel okCre [⟨"r1", "a", "o"⟩] [⟨"a", "x"⟩]).1 =
      callKinds (reconcileAll "p1" okDel okCre
        (postRunState (fun _ => "c") "p1" [⟨"a", "x"⟩] [⟨"r1", "a", "o"⟩])
        [⟨"a", "x"⟩]).1 :=
  claim_c9_amended (fun _ => "c") "p1" [⟨"a", "x"⟩] [⟨"r1", "a", "o"⟩]
    (fun k => by
      show "c" ∉ List.map RemoteRewrite.id [⟨"r1", "a", "o"⟩]
      decide)
    (by decide)
